import Mathlib

/-!
Shallow embedding of `paypal_tax_helper.py`: a balance-tracking and
recognition engine that walks a USD/JPY transaction ledger, accumulates a
JPY cost basis for held USD, recognizes FX gain/loss and spread expense on
full withdrawals, and produces merged reports and periodic summaries.

Dates are modelled as natural numbers (YYYYMMDD encoding, so that the
numeric order is the chronological order and year/month are recoverable by
arithmetic).  Monetary amounts and rates are modelled as rationals.
A rate lookup that raises (pandas `KeyError` on a date absent from the TTM
index) is modelled as `Option`/`Except` failure.
-/

/-- A row of the transactions CSV after `load_transactions`:
date (`日付`), currency (`通貨`), balance effect (`残高への影響`),
net amount (`正味`). -/
structure Tx where
  date : Nat
  currency : String
  effect : String
  net : ℚ
  deriving DecidableEq, Repr

/-- The engine's mutable state in `main`: `usd_balance` and
`accumulated_jpy_income` (the accumulated JPY cost basis). -/
structure EngineState where
  usd_balance : ℚ
  accumulated_jpy_income : ℚ
  deriving DecidableEq, Repr

/-- A record appended by `process_income`:
`入金日, USD入金額, 入金時TTM, JPY換算額（雑所得）`. -/
structure IncomeRecord where
  date : Nat
  usd_amount : ℚ
  ttm : ℚ
  jpy_income : ℚ
  deriving DecidableEq, Repr

/-- A record appended by `process_withdrawal`:
`出金日, USD出金額, 出金TTM, JPY換算入金額（雑所得）, 為替損益（雑所得）,
スプレッド（経費）, 実際のJPY出金額, JPY評価額（TTM換算）`. -/
structure WithdrawalRecord where
  date : Nat
  usd_amount : ℚ
  ttm_out : ℚ
  jpy_income_basis : ℚ
  fx_profit : ℚ
  spread : ℚ
  jpy_out : ℚ
  jpy_evaluated : ℚ
  deriving DecidableEq, Repr

/-- `process_income`: look up the TTM rate for the row's date, convert the
USD net amount to JPY, add both to the running state and append one
`IncomeRecord`.  `rate_on d = none` models the `KeyError` raised by
`ttm_df.loc[pd.Timestamp(date)]` when `d` is absent from the TTM index. -/
def process_income (rate_on : Nat → Option ℚ) (row : Tx) (s : EngineState)
    (income_records : List IncomeRecord) :
    Except Unit (EngineState × List IncomeRecord) :=
  match rate_on row.date with
  | none => .error ()
  | some ttm =>
    let jpy_income := row.net * ttm
    .ok (⟨s.usd_balance + row.net, s.accumulated_jpy_income + jpy_income⟩,
      income_records ++ [⟨row.date, row.net, ttm, jpy_income⟩])

/-- The mask used to locate the matching JPY settlement leg:
same date, `通貨 == "JPY"`, `残高への影響 == "引落し"`. -/
def matchesJpyOut (d : Nat) (r : Tx) : Bool :=
  r.date == d && r.currency == "JPY" && r.effect == "引落し"

/-- `process_withdrawal`: if the balance is zero, skip (before any rate
lookup).  Otherwise look up the rate, evaluate the whole USD balance in
JPY, locate the first matching same-date JPY settlement row in the full
ledger `df` (`.iloc[0]` of the mask = `List.find?`); if none, skip.
Otherwise append one `WithdrawalRecord` and reset the state to zero. -/
def process_withdrawal (rate_on : Nat → Option ℚ) (row : Tx) (s : EngineState)
    (withdrawal_records : List WithdrawalRecord) (df : List Tx) :
    Except Unit (EngineState × List WithdrawalRecord) :=
  if s.usd_balance = 0 then .ok (s, withdrawal_records)
  else
    match rate_on row.date with
    | none => .error ()
    | some ttm_out =>
      let jpy_evaluated := s.usd_balance * ttm_out
      match df.find? (matchesJpyOut row.date) with
      | none => .ok (s, withdrawal_records)
      | some jpy_out_row =>
        let jpy_out := -jpy_out_row.net
        let fx_profit := jpy_evaluated - s.accumulated_jpy_income
        let spread := jpy_evaluated - jpy_out
        .ok (⟨0, 0⟩,
          withdrawal_records ++ [⟨row.date, s.usd_balance, ttm_out,
            s.accumulated_jpy_income, fx_profit, spread, jpy_out, jpy_evaluated⟩])

/-- One iteration of the dispatch loop in `main`: USD deposits go to
`process_income`, USD withdrawals to `process_withdrawal` (which receives
the full ledger `df`), all other rows are ignored. -/
def main_step (rate_on : Nat → Option ℚ) (df : List Tx)
    (st : EngineState × List IncomeRecord × List WithdrawalRecord) (row : Tx) :
    Except Unit (EngineState × List IncomeRecord × List WithdrawalRecord) :=
  if row.currency == "USD" && row.effect == "入金" then
    match process_income rate_on row st.1 st.2.1 with
    | .error e => .error e
    | .ok (s, ir) => .ok (s, ir, st.2.2)
  else if row.currency == "USD" && row.effect == "引落し" then
    match process_withdrawal rate_on row st.1 st.2.2 df with
    | .error e => .error e
    | .ok (s, wr) => .ok (s, st.2.1, wr)
  else .ok st

/-- The dispatch loop of `main` run over a list of remaining rows, with the
full ledger `df` fixed (a rate-lookup failure aborts the whole run). -/
def run_rows (rate_on : Nat → Option ℚ) (df : List Tx)
    (st : EngineState × List IncomeRecord × List WithdrawalRecord) :
    List Tx → Except Unit (EngineState × List IncomeRecord × List WithdrawalRecord)
  | [] => .ok st
  | row :: rest =>
    match main_step rate_on df st row with
    | .error e => .error e
    | .ok st2 => run_rows rate_on df st2 rest

/-- The whole engine pass of `main`: start from zero balances and empty
record lists and process the ledger's rows in the order given. -/
def run_engine (rate_on : Nat → Option ℚ) (df : List Tx) :
    Except Unit (EngineState × List IncomeRecord × List WithdrawalRecord) :=
  run_rows rate_on df (⟨0, 0⟩, [], []) df

deriving instance DecidableEq for Except

example :
    process_income (fun _ => some 150) ⟨20240101, "USD", "入金", 1000⟩ ⟨0, 0⟩ [] =
      .ok (⟨1000, 150000⟩, [⟨20240101, 1000, 150, 150000⟩]) := by
  norm_num [process_income]

example :
    run_engine (fun _ => some 150)
      [⟨1, "USD", "入金", 100⟩, ⟨1, "USD", "引落し", -100⟩, ⟨1, "JPY", "引落し", -14900⟩] =
      .ok (⟨0, 0⟩, [⟨1, 100, 150, 15000⟩], [⟨1, 100, 150, 15000, 0, 100, 14900, 15000⟩]) := by
  norm_num +decide [run_engine, run_rows, main_step, process_income, process_withdrawal,
    matchesJpyOut]

/-- C3: a USD withdrawal row processed while `usd_balance` is nonzero, with a
matching same-date JPY withdrawal row in the full ledger, appends exactly one
`WithdrawalRecord` whose mark-to-market value is `usd_balance * rate`, whose
FX gain/loss is mark-to-market minus the accumulated cost basis, whose spread
expense is mark-to-market minus the actual JPY paid out (the negated net
amount of the matching JPY row), and resets both state fields to zero. -/
theorem c3_withdrawal_recognition (rate_on : Nat → Option ℚ) (row : Tx)
    (s : EngineState) (recs : List WithdrawalRecord) (df : List Tx)
    (ttm : ℚ) (jrow : Tx)
    (hbal : s.usd_balance ≠ 0) (hrate : rate_on row.date = some ttm)
    (hmatch : df.find? (matchesJpyOut row.date) = some jrow) :
    process_withdrawal rate_on row s recs df =
      .ok (⟨0, 0⟩, recs ++
        [{ date := row.date,
           usd_amount := s.usd_balance,
           ttm_out := ttm,
           jpy_income_basis := s.accumulated_jpy_income,
           fx_profit := s.usd_balance * ttm - s.accumulated_jpy_income,
           spread := s.usd_balance * ttm - (-jrow.net),
           jpy_out := -jrow.net,
           jpy_evaluated := s.usd_balance * ttm }]) := by
  simp [process_withdrawal, hbal, hrate, hmatch]

theorem c3_withdrawal_recognition_witness :
    (1000 : ℚ) ≠ 0 ∧
    process_withdrawal (fun _ => some 155) ⟨20240111, "USD", "引落し", -1000⟩
      ⟨1000, 150000⟩ [] [⟨20240111, "JPY", "引落し", -154000⟩] =
      .ok (⟨0, 0⟩, [⟨20240111, 1000, 155, 150000, 5000, 1000, 154000, 155000⟩]) := by
  refine ⟨by norm_num, ?_⟩
  have h := c3_withdrawal_recognition (fun _ => some 155)
    ⟨20240111, "USD", "引落し", -1000⟩ ⟨1000, 150000⟩ []
    [⟨20240111, "JPY", "引落し", -154000⟩] 155 ⟨20240111, "JPY", "引落し", -154000⟩
    (by norm_num) rfl rfl
  rw [h]
  norm_num

/-- C4: a USD deposit row appends exactly one `IncomeRecord` with
`jpy_equivalent = net_amount * rate`, adds the net amount to `usd_balance`
and the JPY equivalent to the accumulated cost basis; two sequential
deposits accumulate additively, each valued at its own date's rate. -/
theorem c4_income_recognition (rate_on : Nat → Option ℚ) (row r2 : Tx)
    (s : EngineState) (recs : List IncomeRecord) (ttm t2 : ℚ)
    (hrate : rate_on row.date = some ttm) (hrate2 : rate_on r2.date = some t2) :
    process_income rate_on row s recs =
      .ok (⟨s.usd_balance + row.net, s.accumulated_jpy_income + row.net * ttm⟩,
        recs ++ [⟨row.date, row.net, ttm, row.net * ttm⟩]) ∧
    (process_income rate_on row s recs).bind
        (fun p => process_income rate_on r2 p.1 p.2) =
      .ok (⟨s.usd_balance + row.net + r2.net,
            s.accumulated_jpy_income + row.net * ttm + r2.net * t2⟩,
        recs ++ [⟨row.date, row.net, ttm, row.net * ttm⟩]
             ++ [⟨r2.date, r2.net, t2, r2.net * t2⟩]) := by
  constructor
  · simp [process_income, hrate]
  · simp [process_income, hrate, hrate2, Except.bind]

theorem c4_income_recognition_witness :
    process_income (fun d => if d = 1 then some 150 else some 160)
        ⟨1, "USD", "入金", 1000⟩ ⟨0, 0⟩ [] =
      .ok (⟨1000, 150000⟩, [⟨1, 1000, 150, 150000⟩]) ∧
    (process_income (fun d => if d = 1 then some 150 else some 160)
        ⟨1, "USD", "入金", 1000⟩ ⟨0, 0⟩ []).bind
      (fun p => process_income (fun d => if d = 1 then some 150 else some 160)
        ⟨2, "USD", "入金", 500⟩ p.1 p.2) =
      .ok (⟨1500, 230000⟩, [⟨1, 1000, 150, 150000⟩, ⟨2, 500, 160, 80000⟩]) := by
  have h := c4_income_recognition (fun d => if d = 1 then some 150 else some 160)
    ⟨1, "USD", "入金", 1000⟩ ⟨2, "USD", "入金", 500⟩ ⟨0, 0⟩ [] 150 160 rfl rfl
  refine ⟨?_, ?_⟩
  · rw [h.1]; norm_num
  · rw [h.2]; norm_num

/-- C6: a USD withdrawal row processed while `usd_balance` is nonzero but
with no matching same-date JPY withdrawal row in the full ledger is a no-op:
the state and the emitted record list are returned unchanged. -/
theorem c6_unmatched_noop (rate_on : Nat → Option ℚ) (row : Tx)
    (s : EngineState) (recs : List WithdrawalRecord) (df : List Tx) (ttm : ℚ)
    (hbal : s.usd_balance ≠ 0) (hrate : rate_on row.date = some ttm)
    (hnomatch : df.find? (matchesJpyOut row.date) = none) :
    process_withdrawal rate_on row s recs df = .ok (s, recs) := by
  simp [process_withdrawal, hbal, hrate, hnomatch]

theorem c6_unmatched_noop_witness :
    (1000 : ℚ) ≠ 0 ∧
    process_withdrawal (fun _ => some 155) ⟨20240111, "USD", "引落し", -1000⟩
      ⟨1000, 150000⟩ [] [⟨20240112, "JPY", "引落し", -154000⟩] =
      .ok (⟨1000, 150000⟩, []) :=
  ⟨by norm_num,
    c6_unmatched_noop (fun _ => some 155) ⟨20240111, "USD", "引落し", -1000⟩
      ⟨1000, 150000⟩ [] [⟨20240112, "JPY", "引落し", -154000⟩] 155
      (by norm_num) rfl rfl⟩

/-- C7: a USD withdrawal row processed while `usd_balance` equals zero is a
no-op: the state and the emitted record list are returned unchanged (the
zero check happens before the rate lookup, so this holds for any rate
table). -/
theorem c7_zero_balance_noop (rate_on : Nat → Option ℚ) (row : Tx)
    (s : EngineState) (recs : List WithdrawalRecord) (df : List Tx)
    (hbal : s.usd_balance = 0) :
    process_withdrawal rate_on row s recs df = .ok (s, recs) := by
  simp [process_withdrawal, hbal]

theorem c7_zero_balance_noop_witness :
    process_withdrawal (fun _ => none) ⟨20240111, "USD", "引落し", -1000⟩
      ⟨0, 0⟩ [] [⟨20240111, "JPY", "引落し", -154000⟩] = .ok (⟨0, 0⟩, []) :=
  c7_zero_balance_noop (fun _ => none) ⟨20240111, "USD", "引落し", -1000⟩
    ⟨0, 0⟩ [] [⟨20240111, "JPY", "引落し", -154000⟩] rfl

/-- The inductive invariant the engine maintains when all USD deposit rows
have nonnegative net amounts: the balance is nonnegative and the cost-basis
accumulator is zero whenever the balance is. -/
def StateInv (s : EngineState) : Prop :=
  0 ≤ s.usd_balance ∧ (s.usd_balance = 0 → s.accumulated_jpy_income = 0)

theorem main_step_inv (rate_on : Nat → Option ℚ) (df : List Tx)
    (st st2 : EngineState × List IncomeRecord × List WithdrawalRecord) (row : Tx)
    (hrow : row.currency = "USD" → row.effect = "入金" → 0 ≤ row.net)
    (hst : StateInv st.1) (h : main_step rate_on df st row = .ok st2) :
    StateInv st2.1 := by
  by_cases hdep : (row.currency == "USD" && row.effect == "入金") = true
  · have hnet : 0 ≤ row.net := by
      simp only [Bool.and_eq_true, beq_iff_eq] at hdep
      exact hrow hdep.1 hdep.2
    rcases hr : rate_on row.date with _ | ttm
    · simp [main_step, hdep, process_income, hr] at h
    · simp only [main_step, hdep, if_true, process_income, hr, Except.ok.injEq] at h
      subst h
      refine ⟨add_nonneg hst.1 hnet, fun h0 => ?_⟩
      simp only at h0
      have h1 : st.1.usd_balance = 0 := by linarith [hst.1]
      have h2 : row.net = 0 := by linarith [hst.1]
      simp [hst.2 h1, h2]
  · by_cases hwd : (row.currency == "USD" && row.effect == "引落し") = true
    · by_cases h0 : st.1.usd_balance = 0
      · simp only [main_step, hdep, hwd, Bool.false_eq_true, if_false, if_true,
          process_withdrawal, h0, Except.ok.injEq] at h
        subst h
        exact hst
      · rcases hr : rate_on row.date with _ | ttm
        · simp [main_step, hdep, hwd, process_withdrawal, h0, hr] at h
        · rcases hf : df.find? (matchesJpyOut row.date) with _ | jrow
          · simp only [main_step, hdep, hwd, Bool.false_eq_true, if_false, if_true,
              process_withdrawal, h0, hr, hf, Except.ok.injEq] at h
            subst h
            exact hst
          · simp only [main_step, hdep, hwd, Bool.false_eq_true, if_false, if_true,
              process_withdrawal, h0, hr, hf, Except.ok.injEq] at h
            subst h
            exact ⟨le_refl 0, fun _ => rfl⟩
    · simp only [main_step, hdep, hwd, Bool.false_eq_true, if_false,
        Except.ok.injEq] at h
      subst h
      exact hst

theorem run_rows_inv (rate_on : Nat → Option ℚ) (df : List Tx) (rows : List Tx)
    (st st2 : EngineState × List IncomeRecord × List WithdrawalRecord)
    (hrows : ∀ r ∈ rows, r.currency = "USD" → r.effect = "入金" → 0 ≤ r.net)
    (hst : StateInv st.1) (h : run_rows rate_on df st rows = .ok st2) :
    StateInv st2.1 := by
  induction rows generalizing st with
  | nil =>
    unfold run_rows at h
    simp only [Except.ok.injEq] at h
    subst h
    exact hst
  | cons row rest ih =>
    unfold run_rows at h
    rcases hstep : main_step rate_on df st row with e | stm
    · rw [hstep] at h
      exact absurd h (by simp)
    · rw [hstep] at h
      exact ih stm (fun r hr => hrows r (List.mem_cons_of_mem row hr))
        (main_step_inv rate_on df st stm row
          (hrows row (List.mem_cons_self row rest)) hst hstep) h

/-- C2 (amended): after processing any prefix of a transaction sequence in
which every USD deposit row has a nonnegative net amount, the accumulated
JPY cost basis is nonzero only when the USD balance is nonzero.  (Without
the nonnegativity restriction a deposit row with a negative net amount can
drive the balance back to zero while leaving a nonzero accumulator — see
the counterexample.) -/
theorem c2_cost_basis_invariant (rate_on : Nat → Option ℚ) (df p rest : List Tx)
    (st2 : EngineState × List IncomeRecord × List WithdrawalRecord)
    (hdf : df = p ++ rest)
    (hpos : ∀ r ∈ df, r.currency = "USD" → r.effect = "入金" → 0 ≤ r.net)
    (h : run_rows rate_on df (⟨0, 0⟩, [], []) p = .ok st2) :
    st2.1.accumulated_jpy_income ≠ 0 → st2.1.usd_balance ≠ 0 := by
  have hp : ∀ r ∈ p, r.currency = "USD" → r.effect = "入金" → 0 ≤ r.net := by
    intro r hr
    exact hpos r (hdf ▸ List.mem_append_left rest hr)
  have hinv := run_rows_inv rate_on df p (⟨0, 0⟩, [], []) st2 hp
    ⟨le_refl 0, fun _ => rfl⟩ h
  intro hacc h0
  exact hacc (hinv.2 h0)

theorem c2_cost_basis_invariant_witness :
    (15000 : ℚ) ≠ 0 ∧ (100 : ℚ) ≠ 0 := by
  have h := c2_cost_basis_invariant (fun _ => some 150)
    [⟨20240101, "USD", "入金", 100⟩] [⟨20240101, "USD", "入金", 100⟩] []
    (⟨100, 15000⟩, [⟨20240101, 100, 150, 15000⟩], [])
    (by simp)
    (by
      intro r hr
      simp only [List.mem_singleton] at hr
      subst hr
      intro _ _
      norm_num)
    (by norm_num +decide [run_rows, main_step, process_income])
  exact ⟨by norm_num, h (by norm_num)⟩

theorem c2_cost_basis_invariant_counterexample :
    run_engine (fun d => if d = 1 then some 1 else some 2)
      [⟨1, "USD", "入金", 100⟩, ⟨2, "USD", "入金", -100⟩] =
      .ok (⟨0, -100⟩, [⟨1, 100, 1, 100⟩, ⟨2, -100, 2, -200⟩], []) ∧
    (-100 : ℚ) ≠ 0 := by
  refine ⟨?_, by norm_num⟩
  norm_num +decide [run_engine, run_rows, main_step, process_income]

/-- A row of the TTM CSV before cleaning: whether the `日付` column parses
as a date (`_is_valid_date`), the parsed date when it does, and the `TTM`
column after `pd.to_numeric(..., errors="coerce")` — `none` models a
missing or unparseable value (pandas NaN). -/
structure TTMRaw where
  valid : Bool
  date : Nat
  ttm : Option ℚ
  deriving DecidableEq, Repr

/-- One step of `ffill`: keep the latest non-missing value seen so far. -/
def fillStep (acc v : Option ℚ) : Option ℚ :=
  match v with
  | some x => some x
  | none => acc

/-- `df["TTM"].ffill()`: forward-fill missing values down the sorted
column, carrying the most recent non-missing value `acc`. -/
def ffillFrom (acc : Option ℚ) : List (Nat × Option ℚ) → List (Nat × Option ℚ)
  | [] => []
  | (d, v) :: rest => (d, fillStep acc v) :: ffillFrom (fillStep acc v) rest

/-- The `(日付, TTM)` rows of `load_ttm` that survive the `_is_valid_date`
filter, sorted by date (`df.sort_values("日付")`). -/
def sorted_ttm (rows : List TTMRaw) : List (Nat × Option ℚ) :=
  ((rows.filter (·.valid)).map (fun r => (r.date, r.ttm))).mergeSort
    (fun a b => a.1 ≤ b.1)

/-- `load_ttm`: keep the rows whose date parses, sort them by date and
forward-fill the TTM column; the result is the date-indexed rate table. -/
def load_ttm (rows : List TTMRaw) : List (Nat × Option ℚ) :=
  ffillFrom none (sorted_ttm rows)

/-- `ttm_df.loc[pd.Timestamp(d)]["TTM"]`: exact lookup of date `d` in the
table's index.  `none` models the `KeyError` raised for an absent date;
`some none` models a present date whose forward-filled TTM is still
missing. -/
def lookupTTM (table : List (Nat × Option ℚ)) (d : Nat) : Option (Option ℚ) :=
  (table.find? (fun p => p.1 == d)).map (fun p => p.2)

/-- The spec's forward-fill contract, written from the spec's words: the
most recent non-missing rate at or before `d` among the surviving rows of
the table, in sorted order (`none` when every row at or before `d` has a
missing rate). -/
def lastRateAtOrBefore (rows : List TTMRaw) (d : Nat) : Option ℚ :=
  ((sorted_ttm rows).filter (fun p => p.1 ≤ d)).foldl (fun a p => fillStep a p.2) none

theorem ffillFrom_find? (l : List (Nat × Option ℚ)) (acc : Option ℚ) (d : Nat)
    (hl : l.Pairwise (fun p q => p.1 < q.1)) :
    (ffillFrom acc l).find? (fun p => p.1 == d) =
      (l.find? (fun p => p.1 == d)).map
        (fun _ => (d, (l.filter (fun p => p.1 ≤ d)).foldl
          (fun a p => fillStep a p.2) acc)) := by
  induction l generalizing acc with
  | nil => simp [ffillFrom]
  | cons hd tl ih =>
    obtain ⟨d0, v0⟩ := hd
    have htl : tl.Pairwise (fun p q => p.1 < q.1) := hl.of_cons
    have hgt : ∀ q ∈ tl, d0 < q.1 := fun q hq => List.rel_of_pairwise_cons hl hq
    by_cases hd0 : d0 = d
    · subst hd0
      have htf : tl.filter (fun p => p.1 ≤ d0) = [] := by
        rw [List.filter_eq_nil_iff]
        intro p hp
        simp only [decide_eq_true_eq, not_le]
        exact hgt p hp
      simp [ffillFrom, List.find?_cons, List.filter_cons, htf, fillStep]
    · have hpred : ((fun p : Nat × Option ℚ => p.1 == d) (d0, v0)) = false := by
        simp [hd0]
      by_cases hle : d0 ≤ d
      · rw [show ffillFrom acc ((d0, v0) :: tl) =
              (d0, fillStep acc v0) :: ffillFrom (fillStep acc v0) tl from rfl]
        rw [List.find?_cons_of_neg _ (by simp [hd0]),
            List.find?_cons_of_neg _ (by simp [hd0])]
        rw [ih (fillStep acc v0) htl]
        simp [List.filter_cons, hle]
      · have hnone : tl.find? (fun p => p.1 == d) = none := by
          rw [List.find?_eq_none]
          intro p hp
          simp only [beq_iff_eq]
          have := hgt p hp
          omega
        rw [show ffillFrom acc ((d0, v0) :: tl) =
              (d0, fillStep acc v0) :: ffillFrom (fillStep acc v0) tl from rfl]
        rw [List.find?_cons_of_neg _ (by simp [hd0]),
            List.find?_cons_of_neg _ (by simp [hd0])]
        rw [ih (fillStep acc v0) htl, hnone]
        simp

/-- C1 (amended): the rate lookup used by the engine is an exact-date
lookup into the forward-filled table: for a queried date that appears among
the valid-date rows it returns the most recent non-missing rate at or
before that date among the table's own rows (a missing value, not an
error, when every row at or before it has no rate — in particular for
present dates before the earliest quote); for a queried date absent from
the table — even one lying between or after known quote dates — it fails
with `KeyError` instead of forward-filling.  The distinct-dates hypothesis
makes the sort order, and hence the table, deterministic. -/
theorem c1_rate_lookup (rows : List TTMRaw) (d : Nat)
    (hnd : ((rows.filter (·.valid)).map (·.date)).Nodup) :
    lookupTTM (load_ttm rows) d =
      if d ∈ (rows.filter (·.valid)).map (·.date) then
        some (lastRateAtOrBefore rows d)
      else none := by
  have hperm : List.Perm (sorted_ttm rows)
      ((rows.filter (·.valid)).map (fun r => (r.date, r.ttm))) :=
    List.mergeSort_perm _ _
  have hmapfst : ((rows.filter (·.valid)).map (fun r => (r.date, r.ttm))).map Prod.fst
      = (rows.filter (·.valid)).map (·.date) := by
    rw [List.map_map]
    rfl
  have hkeys : ((sorted_ttm rows).map Prod.fst).Nodup := by
    refine (hperm.map Prod.fst).nodup_iff.mpr ?_
    rw [hmapfst]
    exact hnd
  have hne : (sorted_ttm rows).Pairwise (fun p q => p.1 ≠ q.1) := by
    exact List.pairwise_map.mp hkeys
  have hsorted : (sorted_ttm rows).Pairwise (fun p q => p.1 ≤ q.1) := by
    have h := @List.sorted_mergeSort (Nat × Option ℚ) (fun a b => a.1 ≤ b.1)
      (by intro a b c hab hbc; simp only [decide_eq_true_eq] at *; omega)
      (by intro a b; simp only [Bool.or_eq_true, decide_eq_true_eq]; omega)
      ((rows.filter (·.valid)).map (fun r => (r.date, r.ttm)))
    exact h.imp (fun hab => by simpa using hab)
  have hlt : (sorted_ttm rows).Pairwise (fun p q => p.1 < q.1) :=
    (hsorted.and hne).imp (fun hab => lt_of_le_of_ne hab.1 hab.2)
  unfold lookupTTM load_ttm
  rw [ffillFrom_find? _ none d hlt]
  by_cases hmem : d ∈ (rows.filter (·.valid)).map (·.date)
  · have hex : ∃ p ∈ sorted_ttm rows, ((fun p : Nat × Option ℚ => p.1 == d) p) = true := by
      obtain ⟨r, hr, hrd⟩ := List.mem_map.mp hmem
      exact ⟨(r.date, r.ttm), hperm.mem_iff.mpr (List.mem_map.mpr ⟨r, hr, rfl⟩),
        by simp [hrd]⟩
    obtain ⟨y, hy⟩ := Option.isSome_iff_exists.mp (List.find?_isSome.mpr hex)
    rw [hy]
    simp [hmem, lastRateAtOrBefore]
  · have hnone : (sorted_ttm rows).find? (fun p => p.1 == d) = none := by
      rw [List.find?_eq_none]
      intro p hp
      simp only [beq_iff_eq]
      intro hpd
      apply hmem
      obtain ⟨r, hr, hrq⟩ := List.mem_map.mp (hperm.mem_iff.mp hp)
      exact List.mem_map.mpr ⟨r, hr, by rw [← hrq] at hpd; simpa using hpd⟩
    rw [hnone]
    simp [hmem]

theorem c1_rate_lookup_counterexample :
    load_ttm [⟨true, 1, some 100⟩, ⟨true, 5, some 110⟩] =
      [(1, some 100), (5, some 110)] ∧
    lookupTTM (load_ttm [⟨true, 1, some 100⟩, ⟨true, 5, some 110⟩]) 3 = none ∧
    lookupTTM (load_ttm [⟨true, 2, none⟩, ⟨true, 5, some 110⟩]) 2 = some none := by
  have h1 : sorted_ttm [⟨true, 1, some 100⟩, ⟨true, 5, some 110⟩] =
      [(1, some 100), (5, some 110)] := by
    unfold sorted_ttm
    rw [show ([⟨true, 1, some 100⟩, ⟨true, 5, some 110⟩] : List TTMRaw).filter (·.valid)
          = [⟨true, 1, some 100⟩, ⟨true, 5, some 110⟩] from rfl]
    rw [List.mergeSort_of_sorted (by simp)]
    rfl
  have h2 : sorted_ttm [⟨true, 2, none⟩, ⟨true, 5, some 110⟩] =
      [(2, none), (5, some 110)] := by
    unfold sorted_ttm
    rw [show ([⟨true, 2, none⟩, ⟨true, 5, some 110⟩] : List TTMRaw).filter (·.valid)
          = [⟨true, 2, none⟩, ⟨true, 5, some 110⟩] from rfl]
    rw [List.mergeSort_of_sorted (by simp)]
    rfl
  refine ⟨?_, ?_, ?_⟩
  · unfold load_ttm
    rw [h1]
    rfl
  · unfold lookupTTM load_ttm
    rw [h1]
    rfl
  · unfold lookupTTM load_ttm
    rw [h2]
    rfl

theorem c1_rate_lookup_witness :
    lookupTTM (load_ttm [⟨true, 1, some 100⟩, ⟨true, 5, some 110⟩]) 5 =
      some (lastRateAtOrBefore [⟨true, 1, some 100⟩, ⟨true, 5, some 110⟩] 5) := by
  have h := c1_rate_lookup [⟨true, 1, some 100⟩, ⟨true, 5, some 110⟩] 5 (by simp)
  simpa using h

theorem main_step_payout (rate_on : Nat → Option ℚ) (df : List Tx)
    (st st2 : EngineState × List IncomeRecord × List WithdrawalRecord) (row : Tx)
    (hst : ∀ r ∈ st.2.2, ∃ j, df.find? (matchesJpyOut r.date) = some j ∧ r.jpy_out = -j.net)
    (h : main_step rate_on df st row = .ok st2) :
    ∀ r ∈ st2.2.2, ∃ j, df.find? (matchesJpyOut r.date) = some j ∧ r.jpy_out = -j.net := by
  by_cases hdep : (row.currency == "USD" && row.effect == "入金") = true
  · rcases hr : rate_on row.date with _ | ttm
    · simp [main_step, hdep, process_income, hr] at h
    · simp only [main_step, hdep, if_true, process_income, hr, Except.ok.injEq] at h
      subst h
      exact hst
  · by_cases hwd : (row.currency == "USD" && row.effect == "引落し") = true
    · by_cases h0 : st.1.usd_balance = 0
      · simp only [main_step, hdep, hwd, Bool.false_eq_true, if_false, if_true,
          process_withdrawal, h0, Except.ok.injEq] at h
        subst h
        exact hst
      · rcases hr : rate_on row.date with _ | ttm
        · simp [main_step, hdep, hwd, process_withdrawal, h0, hr] at h
        · rcases hf : df.find? (matchesJpyOut row.date) with _ | jrow
          · simp only [main_step, hdep, hwd, Bool.false_eq_true, if_false, if_true,
              process_withdrawal, h0, hr, hf, Except.ok.injEq] at h
            subst h
            exact hst
          · simp only [main_step, hdep, hwd, Bool.false_eq_true, if_false, if_true,
              process_withdrawal, h0, hr, hf, Except.ok.injEq] at h
            subst h
            intro r hr2
            rcases List.mem_append.mp hr2 with hmem | hmem
            · exact hst r hmem
            · simp only [List.mem_singleton] at hmem
              subst hmem
              exact ⟨jrow, hf, rfl⟩
    · simp only [main_step, hdep, hwd, Bool.false_eq_true, if_false,
        Except.ok.injEq] at h
      subst h
      exact hst

theorem run_rows_payout (rate_on : Nat → Option ℚ) (df : List Tx) (rows : List Tx)
    (st st2 : EngineState × List IncomeRecord × List WithdrawalRecord)
    (hst : ∀ r ∈ st.2.2, ∃ j, df.find? (matchesJpyOut r.date) = some j ∧ r.jpy_out = -j.net)
    (h : run_rows rate_on df st rows = .ok st2) :
    ∀ r ∈ st2.2.2, ∃ j, df.find? (matchesJpyOut r.date) = some j ∧ r.jpy_out = -j.net := by
  induction rows generalizing st with
  | nil =>
    unfold run_rows at h
    simp only [Except.ok.injEq] at h
    subst h
    exact hst
  | cons row rest ih =>
    unfold run_rows at h
    rcases hstep : main_step rate_on df st row with e | stm
    · rw [hstep] at h
      exact absurd h (by simp)
    · rw [hstep] at h
      exact ih stm (main_step_payout rate_on df st stm row hst hstep) h

/-- C10: the settlement matcher never consumes JPY rows: every withdrawal
record emitted by a run of the engine draws its actual JPY payout from the
first matching same-date JPY withdrawal row of the full ledger
(`List.find?`), so any two records recognized on the same date — e.g. two
withdrawals separated by a deposit — report the same payout. -/
theorem c10_settlement_not_consumed (rate_on : Nat → Option ℚ) (df : List Tx)
    (res : EngineState × List IncomeRecord × List WithdrawalRecord)
    (h : run_engine rate_on df = .ok res) :
    (∀ r ∈ res.2.2, ∃ j, df.find? (matchesJpyOut r.date) = some j ∧
      r.jpy_out = -j.net) ∧
    (∀ r1 ∈ res.2.2, ∀ r2 ∈ res.2.2, r1.date = r2.date →
      r1.jpy_out = r2.jpy_out) := by
  have hall := run_rows_payout rate_on df df (⟨0, 0⟩, [], []) res (by simp) h
  refine ⟨hall, fun r1 h1 r2 h2 hdate => ?_⟩
  obtain ⟨j1, hj1, he1⟩ := hall r1 h1
  obtain ⟨j2, hj2, he2⟩ := hall r2 h2
  rw [hdate] at hj1
  rw [hj1] at hj2
  rw [he1, he2, Option.some.inj hj2]

theorem c10_settlement_not_consumed_witness :
    run_engine (fun _ => some 150)
      [⟨1, "USD", "入金", 100⟩, ⟨1, "USD", "引落し", -100⟩, ⟨1, "USD", "入金", 50⟩,
       ⟨1, "USD", "引落し", -50⟩, ⟨1, "JPY", "引落し", -15000⟩] =
      .ok (⟨0, 0⟩, [⟨1, 100, 150, 15000⟩, ⟨1, 50, 150, 7500⟩],
        [⟨1, 100, 150, 15000, 0, 0, 15000, 15000⟩,
         ⟨1, 50, 150, 7500, 0, -7500, 15000, 7500⟩]) ∧
    (⟨1, 100, 150, 15000, 0, 0, 15000, 15000⟩ : WithdrawalRecord).jpy_out =
      (⟨1, 50, 150, 7500, 0, -7500, 15000, 7500⟩ : WithdrawalRecord).jpy_out := by
  have hrun : run_engine (fun _ => some 150)
      [⟨1, "USD", "入金", 100⟩, ⟨1, "USD", "引落し", -100⟩, ⟨1, "USD", "入金", 50⟩,
       ⟨1, "USD", "引落し", -50⟩, ⟨1, "JPY", "引落し", -15000⟩] =
      .ok (⟨0, 0⟩, [⟨1, 100, 150, 15000⟩, ⟨1, 50, 150, 7500⟩],
        [⟨1, 100, 150, 15000, 0, 0, 15000, 15000⟩,
         ⟨1, 50, 150, 7500, 0, -7500, 15000, 7500⟩]) := by
    norm_num +decide [run_engine, run_rows, main_step, process_income,
      process_withdrawal, matchesJpyOut]
  refine ⟨hrun, ?_⟩
  exact (c10_settlement_not_consumed _ _ _ hrun).2 _ (by simp) _ (by simp) rfl

/-- The `種別` tag of a merged-report row: `入金` (income) or `出金`
(withdrawal). -/
inductive RowKind
  | income
  | withdrawal
  deriving DecidableEq, Repr

/-- A row of the concatenated frame in `create_merged_report`, projected to
the columns the balance pass reads: `種別`, `日付`, `USD金額`, `TTM`. -/
structure MergedRow where
  kind : RowKind
  date : Nat
  usd_amt : ℚ
  ttm : ℚ
  deriving DecidableEq, Repr

/-- Projection of an income record into the common column shape
(`USD金額 = USD入金額`, `TTM = 入金時TTM`). -/
def incomeToMerged (r : IncomeRecord) : MergedRow :=
  ⟨.income, r.date, r.usd_amount, r.ttm⟩

/-- Projection of a withdrawal record into the common column shape
(`USD金額 = USD出金額`, `TTM = 出金TTM`). -/
def withdrawalToMerged (r : WithdrawalRecord) : MergedRow :=
  ⟨.withdrawal, r.date, r.usd_amount, r.ttm_out⟩

/-- The second pass of `create_merged_report` over the date-sorted rows:
update the running USD balance (+ for `入金`, − for `出金`) and record
`(残高（USD）, 残高（JPY換算）)` for each row, the JPY column being the
updated balance times the row's own TTM. -/
def balance_pass (usd_balance : ℚ) : List MergedRow → List (ℚ × ℚ)
  | [] => []
  | row :: rest =>
    let b := match row.kind with
      | .income => usd_balance + row.usd_amt
      | .withdrawal => usd_balance - row.usd_amt
    (b, b * row.ttm) :: balance_pass b rest

/-- The running USD balance after folding the `入金`/`出金` updates of
`create_merged_report` over a list of rows, starting from `b`. -/
def usd_after (b : ℚ) (rows : List MergedRow) : ℚ :=
  rows.foldl (fun acc row => match row.kind with
    | .income => acc + row.usd_amt
    | .withdrawal => acc - row.usd_amt) b

theorem balance_pass_getD (b : ℚ) (pfx rest : List MergedRow) (r : MergedRow) :
    (balance_pass b (pfx ++ r :: rest)).getD pfx.length (0, 0) =
      (usd_after b (pfx ++ [r]), usd_after b (pfx ++ [r]) * r.ttm) := by
  induction pfx generalizing b with
  | nil =>
    cases hk : r.kind <;>
      simp [balance_pass, usd_after, hk]
  | cons p ps ih =>
    have h1 : (balance_pass b ((p :: ps) ++ r :: rest)).getD (p :: ps).length (0, 0)
        = (balance_pass (match p.kind with
            | .income => b + p.usd_amt
            | .withdrawal => b - p.usd_amt) (ps ++ r :: rest)).getD ps.length (0, 0) := rfl
    have h2 : usd_after b ((p :: ps) ++ [r])
        = usd_after (match p.kind with
            | .income => b + p.usd_amt
            | .withdrawal => b - p.usd_amt) (ps ++ [r]) := rfl
    rw [h1, h2, ih]

theorem usd_after_append (b : ℚ) (pfx : List MergedRow) (r : MergedRow) :
    usd_after b (pfx ++ [r]) =
      (match r.kind with
       | .income => usd_after b pfx + r.usd_amt
       | .withdrawal => usd_after b pfx - r.usd_amt) := by
  cases hk : r.kind <;> simp [usd_after, List.foldl_append, hk]

/-- C8: in the balance pass of `create_merged_report`, the running USD
balance recorded for each row equals the balance after the preceding rows
(zero before the first row) plus the row's USD amount for `入金` rows and
minus it for `出金` rows, and the recorded JPY balance is that updated USD
balance times the row's own TTM. -/
theorem c8_running_balance (rows pfx rest : List MergedRow) (r : MergedRow)
    (hrows : rows = pfx ++ r :: rest) :
    (balance_pass 0 rows).getD pfx.length (0, 0) =
      ((match r.kind with
        | .income => usd_after 0 pfx + r.usd_amt
        | .withdrawal => usd_after 0 pfx - r.usd_amt),
       (match r.kind with
        | .income => usd_after 0 pfx + r.usd_amt
        | .withdrawal => usd_after 0 pfx - r.usd_amt) * r.ttm) := by
  subst hrows
  rw [balance_pass_getD 0 pfx rest r, usd_after_append 0 pfx r]

theorem c8_running_balance_witness :
    (balance_pass 0 [⟨.income, 20240101, 100, 150⟩, ⟨.withdrawal, 20240111, 100, 155⟩]).getD
      1 (0, 0) = (0, 0) := by
  have h := c8_running_balance
    [⟨.income, 20240101, 100, 150⟩, ⟨.withdrawal, 20240111, 100, 155⟩]
    [⟨.income, 20240101, 100, 150⟩] [] ⟨.withdrawal, 20240111, 100, 155⟩ rfl
  rw [show ([⟨.income, 20240101, 100, 150⟩] : List MergedRow).length = 1 from rfl] at h
  rw [h]
  norm_num [usd_after]

/-- `combined["年"] = 日付.dt.year` under the YYYYMMDD date encoding. -/
def yearOf (d : Nat) : Nat := d / 10000

/-- `combined["月"] = 日付.dt.month` under the YYYYMMDD date encoding. -/
def monthOf (d : Nat) : Nat := d / 100 % 100

/-- A row of the combined frame built by `_compute_common_summary`, keeping
the columns the aggregation reads: `種別`, `年`, `月`, `USD金額`,
`JPY換算額`, `為替損益`, `実際の出金額`, `スプレッド`. -/
structure SummaryInputRow where
  kind : RowKind
  year : Nat
  month : Nat
  usd : ℚ
  jpy_conv : ℚ
  fx : ℚ
  jpy_paid : ℚ
  spread : ℚ
  deriving DecidableEq, Repr

/-- An income record projected into the combined frame: the three
withdrawal-only columns are filled with `0.0`. -/
def incomeToSummary (r : IncomeRecord) : SummaryInputRow :=
  ⟨.income, yearOf r.date, monthOf r.date, r.usd_amount, r.jpy_income, 0, 0, 0⟩

/-- A withdrawal record projected into the combined frame: note the rename
`JPY換算入金額（雑所得）` → `JPY換算額` (the cost basis lands in the same
column that holds the income rows' JPY equivalent). -/
def withdrawalToSummary (r : WithdrawalRecord) : SummaryInputRow :=
  ⟨.withdrawal, yearOf r.date, monthOf r.date, r.usd_amount, r.jpy_income_basis,
    r.fx_profit, r.jpy_out, r.spread⟩

/-- The group key of a combined row: `(年, 月)` for the monthly summary and
`(年, 0)` for the yearly grouping by `年` alone. -/
def keyOf (monthly : Bool) (r : SummaryInputRow) : Nat × Nat :=
  (r.year, if monthly then r.month else 0)

/-- One output row of the summary: the aggregates (A)–(E) and the derived
`雑所得 (B+C)` and `経費 (E)`. -/
structure SummaryRow where
  a_usd_in : ℚ
  b_jpy_in : ℚ
  c_fx : ℚ
  d_jpy_paid : ℚ
  e_spread : ℚ
  misc_income : ℚ
  expense : ℚ
  deriving DecidableEq, Repr

/-- The per-group aggregation of `_compute_common_summary`: restrict the
combined rows to the group, then sum `USD金額` and `JPY換算額` over its
`入金` rows and `為替損益`, `実際の出金額`, `スプレッド` over its `出金`
rows, with `雑所得 = (B) + (C)` and `経費 = (E)`. -/
def groupSummary (monthly : Bool) (rows : List SummaryInputRow) (k : Nat × Nat) :
    SummaryRow :=
  let g := rows.filter (fun r => keyOf monthly r = k)
  let gi := g.filter (fun r => r.kind = RowKind.income)
  let gw := g.filter (fun r => r.kind = RowKind.withdrawal)
  let b := (gi.map (fun r => r.jpy_conv)).sum
  let c := (gw.map (fun r => r.fx)).sum
  let e := (gw.map (fun r => r.spread)).sum
  ⟨(gi.map (fun r => r.usd)).sum, b, c, (gw.map (fun r => r.jpy_paid)).sum, e,
    b + c, e⟩

/-- `_compute_common_summary`: build the combined frame from the income and
withdrawal records, group by the sorted unique keys (as `groupby` does) and
aggregate each group. -/
def compute_common_summary (monthly : Bool) (income_records : List IncomeRecord)
    (withdrawal_records : List WithdrawalRecord) :
    List ((Nat × Nat) × SummaryRow) :=
  ((((income_records.map incomeToSummary
        ++ withdrawal_records.map withdrawalToSummary).map (keyOf monthly)).dedup).mergeSort
      (fun k1 k2 => k1.1 < k2.1 || (k1.1 == k2.1 && k1.2 ≤ k2.2))).map
    (fun k => (k, groupSummary monthly
      (income_records.map incomeToSummary
        ++ withdrawal_records.map withdrawalToSummary) k))

theorem summary_income_rows (monthly : Bool) (k : Nat × Nat)
    (inc : List IncomeRecord) (wd : List WithdrawalRecord) :
    ((inc.map incomeToSummary ++ wd.map withdrawalToSummary).filter
        (fun r => keyOf monthly r = k)).filter (fun r => r.kind = RowKind.income)
      = (inc.filter (fun r => keyOf monthly (incomeToSummary r) = k)).map
          incomeToSummary := by
  rw [List.filter_append, List.filter_append]
  have hW : ((wd.map withdrawalToSummary).filter
      (fun r => keyOf monthly r = k)).filter (fun r => r.kind = RowKind.income)
      = [] := by
    simp only [List.filter_eq_nil_iff]
    intro x hx
    obtain ⟨w, _, hwx⟩ := List.mem_map.mp (List.mem_filter.mp hx).1
    subst hwx
    simp [withdrawalToSummary]
  rw [hW, List.append_nil]
  rw [List.filter_map, List.filter_map]
  congr 1
  rw [List.filter_filter]
  refine List.filter_congr ?_
  intro r _
  simp [incomeToSummary, Function.comp]

theorem summary_withdrawal_rows (monthly : Bool) (k : Nat × Nat)
    (inc : List IncomeRecord) (wd : List WithdrawalRecord) :
    ((inc.map incomeToSummary ++ wd.map withdrawalToSummary).filter
        (fun r => keyOf monthly r = k)).filter
        (fun r => r.kind = RowKind.withdrawal)
      = (wd.filter (fun r => keyOf monthly (withdrawalToSummary r) = k)).map
          withdrawalToSummary := by
  rw [List.filter_append, List.filter_append]
  have hI : ((inc.map incomeToSummary).filter
      (fun r => keyOf monthly r = k)).filter (fun r => r.kind = RowKind.withdrawal)
      = [] := by
    simp only [List.filter_eq_nil_iff]
    intro x hx
    obtain ⟨w, _, hwx⟩ := List.mem_map.mp (List.mem_filter.mp hx).1
    subst hwx
    simp [incomeToSummary]
  rw [hI, List.nil_append]
  rw [List.filter_map, List.filter_map]
  congr 1
  rw [List.filter_filter]
  refine List.filter_congr ?_
  intro r _
  simp [withdrawalToSummary, Function.comp]

/-- C9: each summary row's aggregates (A), (B) equal the sums of USD amount
and JPY equivalent over the group's income records; (C), (D), (E) equal the
sums of FX gain/loss, actual JPY paid out and spread expense over the
group's withdrawal records; `雑所得 = (B)+(C)` and `経費 = (E)`; and a
group containing no records of one type reports zero for that type's
aggregates.  This holds for both groupings (`monthly = true` for `(年, 月)`
and `monthly = false` for `(年)`). -/
theorem c9_summary_sums (monthly : Bool) (inc : List IncomeRecord)
    (wd : List WithdrawalRecord) (k : Nat × Nat) (srow : SummaryRow)
    (hmem : (k, srow) ∈ compute_common_summary monthly inc wd) :
    srow.a_usd_in = ((inc.filter (fun r => keyOf monthly (incomeToSummary r) = k)).map
        (fun r => r.usd_amount)).sum ∧
    srow.b_jpy_in = ((inc.filter (fun r => keyOf monthly (incomeToSummary r) = k)).map
        (fun r => r.jpy_income)).sum ∧
    srow.c_fx = ((wd.filter (fun r => keyOf monthly (withdrawalToSummary r) = k)).map
        (fun r => r.fx_profit)).sum ∧
    srow.d_jpy_paid = ((wd.filter (fun r => keyOf monthly (withdrawalToSummary r) = k)).map
        (fun r => r.jpy_out)).sum ∧
    srow.e_spread = ((wd.filter (fun r => keyOf monthly (withdrawalToSummary r) = k)).map
        (fun r => r.spread)).sum ∧
    srow.misc_income = srow.b_jpy_in + srow.c_fx ∧
    srow.expense = srow.e_spread ∧
    (inc.filter (fun r => keyOf monthly (incomeToSummary r) = k) = [] →
      srow.a_usd_in = 0 ∧ srow.b_jpy_in = 0) ∧
    (wd.filter (fun r => keyOf monthly (withdrawalToSummary r) = k) = [] →
      srow.c_fx = 0 ∧ srow.d_jpy_paid = 0 ∧ srow.e_spread = 0) := by
  unfold compute_common_summary at hmem
  obtain ⟨key, hkey, heq⟩ := List.mem_map.mp hmem
  rw [Prod.mk.injEq] at heq
  obtain ⟨rfl, rfl⟩ := heq
  have ha : (groupSummary monthly
      (inc.map incomeToSummary ++ wd.map withdrawalToSummary) key).a_usd_in =
      ((inc.filter (fun r => keyOf monthly (incomeToSummary r) = key)).map
        (fun r => r.usd_amount)).sum := by
    simp only [groupSummary]
    rw [summary_income_rows, List.map_map]
    rfl
  have hb : (groupSummary monthly
      (inc.map incomeToSummary ++ wd.map withdrawalToSummary) key).b_jpy_in =
      ((inc.filter (fun r => keyOf monthly (incomeToSummary r) = key)).map
        (fun r => r.jpy_income)).sum := by
    simp only [groupSummary]
    rw [summary_income_rows, List.map_map]
    rfl
  have hc : (groupSummary monthly
      (inc.map incomeToSummary ++ wd.map withdrawalToSummary) key).c_fx =
      ((wd.filter (fun r => keyOf monthly (withdrawalToSummary r) = key)).map
        (fun r => r.fx_profit)).sum := by
    simp only [groupSummary]
    rw [summary_withdrawal_rows, List.map_map]
    rfl
  have hd : (groupSummary monthly
      (inc.map incomeToSummary ++ wd.map withdrawalToSummary) key).d_jpy_paid =
      ((wd.filter (fun r => keyOf monthly (withdrawalToSummary r) = key)).map
        (fun r => r.jpy_out)).sum := by
    simp only [groupSummary]
    rw [summary_withdrawal_rows, List.map_map]
    rfl
  have he : (groupSummary monthly
      (inc.map incomeToSummary ++ wd.map withdrawalToSummary) key).e_spread =
      ((wd.filter (fun r => keyOf monthly (withdrawalToSummary r) = key)).map
        (fun r => r.spread)).sum := by
    simp only [groupSummary]
    rw [summary_withdrawal_rows, List.map_map]
    rfl
  refine ⟨ha, hb, hc, hd, he, ?_, ?_, fun h => ?_, fun h => ?_⟩
  · simp only [groupSummary]
  · simp only [groupSummary]
  · exact ⟨by rw [ha, h]; simp, by rw [hb, h]; simp⟩
  · exact ⟨by rw [hc, h]; simp, by rw [hd, h]; simp, by rw [he, h]; simp⟩

theorem c9_summary_sums_witness :
    (⟨1000, 150000, 0, 0, 0, 150000, 0⟩ : SummaryRow).a_usd_in =
      ((([⟨20240115, 1000, 150, 150000⟩] : List IncomeRecord).filter
          (fun r => keyOf true (incomeToSummary r) = (2024, 1))).map
        (fun r => r.usd_amount)).sum := by
  refine (c9_summary_sums true [⟨20240115, 1000, 150, 150000⟩] [] (2024, 1)
    ⟨1000, 150000, 0, 0, 0, 150000, 0⟩ ?_).1
  norm_num +decide [compute_common_summary, groupSummary, incomeToSummary,
    keyOf, yearOf, monthOf]
